import Mathlib

/-!
Shallow embedding of the VM instruction-set recovery engine of this repository
(src/parser/functions.rs, src/parser/magic_bits.rs, src/parser/offset.rs,
src/parser/vm.rs, src/disassembler/disassemble.rs), together with theorems
settling the specification claims about it.

Conventions used throughout:
* Rust `FxHashMap`s are modelled as association lists with first-match lookup;
  `insert` prepends (shadowing the old binding) and `remove` filters the key out.
  Only lookup/insert/remove behaviour is relied on; whenever the Rust code
  iterates a hash map (whose order is unspecified), the iteration order is taken
  as an explicit list parameter.
* Rust `u16`/`u32`/`i16`/`i64` values are modelled as `Nat`/`Int` with explicit
  saturation (`as` casts from `f64`) or wrapping (`as` casts between integers)
  where the source performs such casts.
* Rust `f64` is modelled by `JsNum` below: an exact rational together with the
  special values `inf`, `neginf`, `nan`.  Rational arithmetic is exact while f64
  rounds, but every claim in scope evaluates only small integral values, on
  which f64 arithmetic is also exact.
* `&str::len` is byte length, modelled with `String.utf8ByteSize`.
-/

namespace SolverTest

/-! ## Association-list maps (model of FxHashMap / HashMap) -/

/-- Lookup of the first binding of key `k` (model of `HashMap::get`). -/
def mapLookup {α β : Type} [BEq α] (m : List (α × β)) (k : α) : Option β :=
  (m.find? (fun p => p.1 == k)).map (fun p => p.2)

/-- Insert with shadowing (model of `HashMap::insert`; only `mapLookup` is ever
used to observe the map, so shadowing is equivalent to overwriting). -/
def mapInsert {α β : Type} [BEq α] (m : List (α × β)) (k : α) (v : β) : List (α × β) :=
  (k, v) :: m

/-- Removal of every binding of `k` (model of `HashMap::remove`). -/
def mapErase {α β : Type} [BEq α] (m : List (α × β)) (k : α) : List (α × β) :=
  m.filter (fun p => !(p.1 == k))

theorem mapLookup_mapErase_self {α β : Type} [BEq α] [LawfulBEq α]
    (m : List (α × β)) (k : α) : mapLookup (mapErase m k) k = none := by
  induction m with
  | nil => rfl
  | cons p rest ih =>
    unfold mapErase mapLookup at ih ⊢
    by_cases h : (p.1 == k) = true
    · simp only [List.filter_cons, h, Bool.not_true, if_neg Bool.false_ne_true]
      exact ih
    · have hb : (p.1 == k) = false := by simpa using h
      simp only [List.filter_cons, hb, Bool.not_false, if_true, List.find?_cons, hb]
      exact ih

/-! ## BitsNormalizer (src/parser/magic_bits.rs, `normalize_bits`)

The Rust function scans the slice with a cursor: a `(195, 188)` pair (and any
immediately following `(195, 188)` pairs) is dropped, an isolated `127` is
dropped, everything else is copied.  Consuming several consecutive pairs in the
inner `while` is equivalent to consuming one pair and re-entering the outer
loop, which is the shape of the recursion below.  Element values are `u16`,
modelled as `Nat` (the function only compares them for equality). -/

def normalize_bits : List Nat → List Nat
  | [] => []
  | [a] => if a = 127 then [] else [a]
  | a :: b :: rest =>
    if a = 195 ∧ b = 188 then normalize_bits rest
    else if a = 127 then normalize_bits (b :: rest)
    else a :: normalize_bits (b :: rest)
termination_by l => l.length

/-- `127` never survives normalization. -/
theorem not_mem_normalize_bits_127 (l : List Nat) : 127 ∉ normalize_bits l := by
  induction l using normalize_bits.induct with
  | case1 => simp [normalize_bits]
  | case2 => simp [normalize_bits]
  | case3 a ha => simp [normalize_bits, ha, Ne.symm ha]
  | case4 a b rest hab ih => simpa [normalize_bits, hab] using ih
  | case5 b rest hab ih => simpa [normalize_bits, hab] using ih
  | case6 a b rest hab ha ih =>
    simp only [normalize_bits, hab, if_false, ha, List.mem_cons, not_or]
    exact ⟨fun h => ha h.symm, ih⟩

/-- Does the list contain an adjacent `(195, 188)` pair? -/
def hasMarkerPair : List Nat → Bool
  | [] => false
  | [_] => false
  | a :: b :: rest => (a = 195 ∧ b = 188 : Bool) || hasMarkerPair (b :: rest)

/-- A list free of `127` and of adjacent `(195, 188)` pairs is a fixpoint of
`normalize_bits`. -/
theorem normalize_bits_fixpoint (l : List Nat)
    (h127 : 127 ∉ l) (hpair : hasMarkerPair l = false) :
    normalize_bits l = l := by
  induction l using normalize_bits.induct with
  | case1 => simp [normalize_bits]
  | case2 => exact absurd (List.mem_singleton.mpr rfl) h127
  | case3 a ha => simp [normalize_bits, ha]
  | case4 a b rest hab ih =>
    exfalso
    simp [hasMarkerPair, hab.1, hab.2] at hpair
  | case5 b rest hab ih =>
    exact absurd (List.mem_cons_self 127 _) h127
  | case6 a b rest hab ha ih =>
    have h127' : 127 ∉ b :: rest := fun h => h127 (List.mem_cons_of_mem a h)
    have hpair' : hasMarkerPair (b :: rest) = false := by
      simp only [hasMarkerPair, Bool.or_eq_false_iff] at hpair
      exact hpair.2
    simp [normalize_bits, hab, ha, ih h127' hpair']

/-! ## Numbers (model of Rust `f64` as used by the constant folder)

`JsNum` is an exact model of the f64 values the folder manipulates: a finite
rational, the two infinities, or NaN.  Arithmetic on the special values follows
IEEE-754 (as Rust f64 implements it); arithmetic on finite values is exact
where f64 rounds, which coincides on the small integers every claim uses.
Negative zero is not represented (it is only observable here through division,
which no claim exercises on signed zeros). -/

inductive JsNum : Type where
  | fin (q : ℚ)
  | inf
  | neginf
  | nan
deriving DecidableEq, Repr

/-- Truncation toward zero of a rational (what `as i64`-style casts do before
clamping). -/
def ratTrunc (q : ℚ) : Int := q.num.tdiv q.den

/-- Model of Rust `f64 as i64`: truncate toward zero, saturate at the i64
bounds, NaN becomes 0. -/
def jsToI64 : JsNum → Int
  | .fin q => max (-(2 ^ 63)) (min (2 ^ 63 - 1) (ratTrunc q))
  | .inf => 2 ^ 63 - 1
  | .neginf => -(2 ^ 63)
  | .nan => 0

/-- Model of Rust `f64 as u64`: truncate toward zero, saturate into `[0, 2^64)`,
NaN becomes 0. -/
def jsToU64 (n : JsNum) : Nat :=
  match n with
  | .fin q => (max 0 (min (2 ^ 64 - 1) (ratTrunc q))).toNat
  | .inf => 2 ^ 64 - 1
  | .neginf => 0
  | .nan => 0

/-- Model of Rust `f64 as u32`. -/
def jsToU32 (n : JsNum) : Nat :=
  match n with
  | .fin q => (max 0 (min (2 ^ 32 - 1) (ratTrunc q))).toNat
  | .inf => 2 ^ 32 - 1
  | .neginf => 0
  | .nan => 0

/-- Model of Rust `f64 as u16`. -/
def jsToU16 (n : JsNum) : Nat :=
  match n with
  | .fin q => (max 0 (min 65535 (ratTrunc q))).toNat
  | .inf => 65535
  | .neginf => 0
  | .nan => 0

/-- Model of Rust `i64 as i16` (wrapping two's-complement truncation). -/
def wrapI16 (x : Int) : Int := (x + 32768) % 65536 - 32768

/-- Model of Rust `i64` wrap-around (used for the `<<` result). -/
def wrapI64 (x : Int) : Int := (x + 2 ^ 63) % 2 ^ 64 - 2 ^ 63

def jsIsNan : JsNum → Bool
  | .nan => true
  | _ => false

/-- Equality with `0.0` as f64 `==` computes it (NaN compares unequal). -/
def jsEqZero : JsNum → Bool
  | .fin q => q == 0
  | _ => false

def jsNeg : JsNum → JsNum
  | .fin q => .fin (-q)
  | .inf => .neginf
  | .neginf => .inf
  | .nan => .nan

def jsAdd : JsNum → JsNum → JsNum
  | .nan, _ => .nan
  | _, .nan => .nan
  | .inf, .neginf => .nan
  | .neginf, .inf => .nan
  | .inf, _ => .inf
  | _, .inf => .inf
  | .neginf, _ => .neginf
  | _, .neginf => .neginf
  | .fin a, .fin b => .fin (a + b)

def jsSub (a b : JsNum) : JsNum := jsAdd a (jsNeg b)

def jsMul : JsNum → JsNum → JsNum
  | .nan, _ => .nan
  | _, .nan => .nan
  | .fin a, .fin b => .fin (a * b)
  | .inf, .inf => .inf
  | .inf, .neginf => .neginf
  | .neginf, .inf => .neginf
  | .neginf, .neginf => .inf
  | .inf, .fin b => if b = 0 then .nan else if 0 < b then .inf else .neginf
  | .fin a, .inf => if a = 0 then .nan else if 0 < a then .inf else .neginf
  | .neginf, .fin b => if b = 0 then .nan else if 0 < b then .neginf else .inf
  | .fin a, .neginf => if a = 0 then .nan else if 0 < a then .neginf else .inf

def jsDiv : JsNum → JsNum → JsNum
  | .nan, _ => .nan
  | _, .nan => .nan
  | .inf, .inf => .nan
  | .inf, .neginf => .nan
  | .neginf, .inf => .nan
  | .neginf, .neginf => .nan
  | .fin _, .inf => .fin 0
  | .fin _, .neginf => .fin 0
  | .inf, .fin b => if 0 ≤ b then .inf else .neginf
  | .neginf, .fin b => if 0 ≤ b then .neginf else .inf
  | .fin a, .fin b =>
    if b ≠ 0 then .fin (a / b)
    else if a = 0 then .nan
    else if 0 < a then .inf
    else .neginf

/-- Model of Rust `%` on f64 (`fmod`): `a - b * trunc(a / b)`, NaN on an
infinite dividend or zero divisor, identity on an infinite divisor. -/
def jsRem : JsNum → JsNum → JsNum
  | .nan, _ => .nan
  | _, .nan => .nan
  | .inf, _ => .nan
  | .neginf, _ => .nan
  | .fin a, .inf => .fin a
  | .fin a, .neginf => .fin a
  | .fin a, .fin b =>
    if b = 0 then .nan else .fin (a - b * (ratTrunc (a / b) : ℚ))

/-- JS truthiness as the folder computes it: `l != 0.0 && !l.is_nan()`. -/
def jsTruthy (n : JsNum) : Bool := !(jsEqZero n) && !(jsIsNan n)

/-! ## AST (fragment of the oxc AST the engine pattern-matches on)

Each constructor mirrors the oxc node kind of the same name, restricted to the
fields the engine reads.  Node kinds the engine never distinguishes are folded
into the catch-all constructors `otherExpr` / `otherStmt` / `targetOther` /
`Argument.nonExpr` (the latter also covers spread arguments and array-literal
elisions, for which oxc's `as_expression()` returns `None`).  Operators are
carried as their source strings, exactly what the Rust code compares
(`operator.as_str()`). -/

mutual

inductive Expression : Type where
  | numericLiteral (value : ℚ)
  | stringLiteral (value : String)
  | identifier (name : String)
  | nullLiteral
  | parenthesized (expression : Expression)
  | sequence (expressions : List Expression)
  | unary (op : String) (argument : Expression)
  | binary (op : String) (left right : Expression)
  | logical (op : String) (left right : Expression)
  | conditional (test consequent alternate : Expression)
  | call (callee : Expression) (arguments : List Argument)
  | newExpr (callee : Expression) (arguments : List Argument)
  | computedMember (object expression : Expression)
  | staticMember (object : Expression) (property : String)
  | assignment (left : AssignmentTarget) (right : Expression)
  | arrayExpr (elements : List Argument)
  | objectExpr
  | otherExpr

inductive Argument : Type where
  | expr (e : Expression)
  | nonExpr

inductive AssignmentTarget : Type where
  | targetIdent (name : String)
  | targetComputedMember (object expression : Expression)
  | targetStaticMember (object : Expression) (property : String)
  | targetOther

end

/-- Statements, with the same scoping discipline as `Expression`. A `for`
statement carries its init/test/update expressions (a declaration initializer
is folded into `otherStmt`-like absence) and its body statement. Function
declarations carry the identifier and body statement list the visitors read. -/
inductive Statement : Type where
  | exprStmt (expression : Expression)
  | returnStmt (argument : Option Expression)
  | ifStmt (test : Expression) (consequent : Statement) (alternate : Option Statement)
  | throwStmt (argument : Expression)
  | forStmt (finit ftest fupdate : Option Expression) (body : Statement)
  | block (body : List Statement)
  | funcDecl (fid : Option String) (fbody : Option (List Statement))
  | otherStmt

/-- The fields of an oxc `Function` node that the visitors read
(`node.id.name` and `node.body.statements`). -/
structure Function : Type where
  id : Option String
  body : Option (List Statement)

/-! ## String-to-number parsing (models of Rust `str::parse`)

`parse::<f64>` accepts an optional sign, then `inf`/`infinity`/`nan`
(case-insensitive) or a decimal mantissa with an optional `e`/`E` exponent.
The model computes the exact rational where f64 would round, and stays finite
where a huge exponent would overflow f64 to infinity; no claim exercises
either edge.  `parse::<u64>`/`parse::<u16>` accept an optional `+` and
decimal digits, failing on overflow. -/

def digitsVal (cs : List Char) : Nat :=
  cs.foldl (fun a c => a * 10 + (c.toNat - 48)) 0

def stripPlus : List Char → List Char
  | '+' :: rest => rest
  | cs => cs

def parseU64 (s : String) : Option Nat :=
  let cs := stripPlus s.toList
  if cs ≠ [] ∧ cs.all Char.isDigit ∧ digitsVal cs < 2 ^ 64 then some (digitsVal cs)
  else none

def parseU16 (s : String) : Option Nat :=
  let cs := stripPlus s.toList
  if cs ≠ [] ∧ cs.all Char.isDigit ∧ digitsVal cs < 65536 then some (digitsVal cs)
  else none

/-- Split a character list at the first `e`/`E`, if any. -/
def splitOnExp (cs : List Char) : List Char × Option (List Char) :=
  match cs.span (fun c => !(c == 'e' || c == 'E')) with
  | (m, []) => (m, none)
  | (m, _ :: rest) => (m, some rest)

/-- Leading sign: returns (negative, rest). -/
def parseSignChar : List Char → Bool × List Char
  | '-' :: rest => (true, rest)
  | '+' :: rest => (false, rest)
  | cs => (false, cs)

/-- Mantissa `digits [. digits]` with at least one digit overall. -/
def parseMantissa (cs : List Char) : Option ℚ :=
  match cs.span Char.isDigit with
  | (ip, []) => if ip = [] then none else some ((digitsVal ip : ℚ))
  | (ip, '.' :: fp) =>
    if fp.all Char.isDigit ∧ (ip ≠ [] ∨ fp ≠ []) then
      some ((digitsVal ip : ℚ) + (digitsVal fp : ℚ) / ((10 : ℚ) ^ fp.length))
    else none
  | _ => none

def parseExpPart (cs : List Char) : Option Int :=
  let (neg, ds) := parseSignChar cs
  if ds ≠ [] ∧ ds.all Char.isDigit then
    some (if neg then -(digitsVal ds : Int) else (digitsVal ds : Int))
  else none

def mkSigned (neg : Bool) (q : ℚ) : JsNum := .fin (if neg then -q else q)

def parseF64 (s : String) : Option JsNum :=
  let (neg, body) := parseSignChar s.toList
  let lower := body.map Char.toLower
  if lower = "inf".toList ∨ lower = "infinity".toList then
    some (if neg then .neginf else .inf)
  else if lower = "nan".toList then some .nan
  else
    match splitOnExp body with
    | (m, none) => (parseMantissa m).map (fun q => mkSigned neg q)
    | (m, some ecs) =>
      match parseMantissa m, parseExpPart ecs with
      | some q, some e => some (mkSigned neg (q * (10 : ℚ) ^ e))
      | _, _ => none

/-! ## ConstantFolder (src/parser/functions.rs, `FindFunctions::resolve_expr`,
`resolve_index`, `extract_numeric_literal`, `extract_function_name`) -/

mutual

/-- Model of `FindFunctions::resolve_expr` (functions.rs lines 33-77): optional
numeric value of an expression, given the tracked variable table. -/
def resolve_expr (vars : List (String × JsNum)) : Expression → Option JsNum
  | .numericLiteral v => some (.fin v)
  | .stringLiteral s => parseF64 s
  | .identifier name => mapLookup vars name
  | .parenthesized e => resolve_expr vars e
  | .sequence es => resolve_seq_last vars es
  | .unary op arg =>
    match resolve_expr vars arg with
    | none => none
    | some v =>
      match op with
      | "-" => some (jsNeg v)
      | "+" => some v
      | "~" => some (.fin ((-(jsToI64 v) - 1 : Int) : ℚ))
      | "!" => some (if jsEqZero v then .fin 1 else .fin 0)
      | _ => none
  | .binary op l r =>
    match resolve_expr vars l, resolve_expr vars r with
    | some lv, some rv =>
      match op with
      | "+" => some (jsAdd lv rv)
      | "-" => some (jsSub lv rv)
      | "*" => some (jsMul lv rv)
      | "/" => some (jsDiv lv rv)
      | "%" => some (jsRem lv rv)
      | "&" => some (.fin ((Int.land (jsToI64 lv) (jsToI64 rv) : Int) : ℚ))
      | "|" => some (.fin ((Int.lor (jsToI64 lv) (jsToI64 rv) : Int) : ℚ))
      | "^" => some (.fin ((Int.xor (jsToI64 lv) (jsToI64 rv) : Int) : ℚ))
      | "<<" => some (.fin ((wrapI64 (jsToI64 lv * 2 ^ ((jsToI64 rv) % 64).toNat) : Int) : ℚ))
      | ">>" => some (.fin ((Int.fdiv (jsToI64 lv) (2 ^ ((jsToI64 rv) % 64).toNat) : Int) : ℚ))
      | _ => none
    | _, _ => none
  | .logical op l r =>
    let right := resolve_expr vars r
    match op with
    | "||" =>
      match resolve_expr vars l with
      | some lv => if jsTruthy lv then some lv else right
      | none => right
    | "&&" =>
      match resolve_expr vars l with
      | some lv => if jsEqZero lv || jsIsNan lv then some lv else right
      | none => none
    | "??" =>
      match resolve_expr vars l with
      | some lv => some lv
      | none => right
    | _ => none
  | .conditional t c a =>
    match resolve_expr vars t with
    | some tv => if jsTruthy tv then resolve_expr vars c else resolve_expr vars a
    | none => none
  | _ => none

/-- Model of `seq.expressions.last().and_then(|e| resolve_expr(e))`. -/
def resolve_seq_last (vars : List (String × JsNum)) : List Expression → Option JsNum
  | [] => none
  | [e] => resolve_expr vars e
  | _ :: e :: rest => resolve_seq_last vars (e :: rest)

end

mutual

/-- Model of `FindFunctions::extract_numeric_literal` (functions.rs lines
92-116): raw-literal recursive fallback returning a `u64`. -/
def extract_numeric_literal : Expression → Option Nat
  | .numericLiteral n => some (jsToU64 (.fin n))
  | .stringLiteral s => parseU64 s
  | .parenthesized p => extract_numeric_literal p
  | .unary _ u => extract_numeric_literal u
  | .binary _ l r =>
    match extract_numeric_literal l with
    | some v => some v
    | none => extract_numeric_literal r
  | .sequence es => extract_rev_first es
  | .call _ args => extract_args_first args
  | .computedMember obj ex =>
    match extract_numeric_literal ex with
    | some v => some v
    | none => extract_numeric_literal obj
  | .staticMember obj _ => extract_numeric_literal obj
  | _ => none

/-- Model of `seq.expressions.iter().rev().find_map(...)`: first hit from the
end of the list. -/
def extract_rev_first : List Expression → Option Nat
  | [] => none
  | e :: rest =>
    match extract_rev_first rest with
    | some v => some v
    | none => extract_numeric_literal e

/-- Model of `call.arguments.iter().find_map(|arg| arg.as_expression()...)`. -/
def extract_args_first : List Argument → Option Nat
  | [] => none
  | .expr e :: rest =>
    match extract_numeric_literal e with
    | some v => some v
    | none => extract_args_first rest
  | .nonExpr :: rest => extract_args_first rest

end

/-- Model of `FindFunctions::resolve_index` (functions.rs lines 79-90).  The
final fallback maps the `u64` literal through `as u16`, which wraps. -/
def resolve_index (vars : List (String × JsNum)) (e : Expression) : Option Nat :=
  match resolve_expr vars e with
  | some v => some (jsToU16 v)
  | none =>
    let fb := (extract_numeric_literal e).map (fun v => v % 65536)
    match e with
    | .binary _ l r =>
      match resolve_expr vars l, resolve_expr vars r with
      | some v, none => some (jsToU16 v)
      | none, some v => some (jsToU16 v)
      | _, _ => fb
    | _ => fb

/-- Model of `FindFunctions::extract_function_name` (functions.rs lines
118-149). -/
def extract_function_name : Expression → Option String
  | .identifier name => some name
  | .call callee _ =>
    match callee with
    | .identifier name => some name
    | .staticMember (.identifier obj) _ => some obj
    | .computedMember (.identifier obj) _ => some obj
    | _ => none
  | .staticMember (.identifier obj) _ => some obj
  | .computedMember (.identifier obj) _ => some obj
  | _ => none

/-! ## FunctionClassifier (src/parser/functions.rs, `FindFunctions` visitor)

Each `visit_*` handler is modelled as the state transition it performs on the
node it is invoked on; the trailing `walk_*` call in each Rust handler is the
generic traversal that re-invokes the handlers on child nodes and carries no
state change of its own. -/

structure FFState : Type where
  last_function_name : String
  is_big_function : Bool
  key : Nat
  constants : Nat
  function_with_opcodes : String
  functions : List (String × Nat)
  vars : List (String × JsNum)
  index_bits : List (Nat × List Nat)

/-- `FindFunctions::default()`. -/
def FFState.initial : FFState :=
  { last_function_name := "", is_big_function := false, key := 0, constants := 0,
    function_with_opcodes := "", functions := [], vars := [], index_bits := [] }

/-- Model of `FindFunctions::visit_function` (functions.rs lines 153-171):
a body of more than 50 statements marks the dispatcher and overrides the
effective name with the `VM_ENTRY` sentinel, named or anonymous alike. -/
def findFunctionsVisitFunction (st : FFState) (f : Function) : FFState :=
  let name0 := f.id.getD ""
  let big : Bool :=
    match f.body with
    | some stmts => stmts.length > 50
    | none => false
  let name := if big then "VM_ENTRY" else name0
  let st1 := { st with is_big_function := big, last_function_name := name }
  if big then { st1 with function_with_opcodes := name } else st1

/-- Model of `FindFunctions::visit_variable_declaration` (functions.rs lines
173-184): a declarator with a binding identifier and a resolvable initializer
updates the variable table.  A declarator whose id is a pattern is `none`. -/
def findFunctionsVisitVarDecl (st : FFState)
    (decls : List (Option String × Option Expression)) : FFState :=
  decls.foldl
    (fun acc d =>
      match d with
      | (some name, some finit) =>
        match resolve_expr acc.vars finit with
        | some v => { acc with vars := mapInsert acc.vars name v }
        | none => acc
      | _ => acc)
    st

/-- First maximal run of decimal digits in a string: what `Regex::new(r"\d+")`
captures first (the source strings in scope are ASCII, so ASCII digits
suffice). -/
def firstDigitRunAux : List Char → Option (List Char)
  | [] => none
  | c :: rest =>
    if c.isDigit then some (c :: rest.takeWhile Char.isDigit)
    else firstDigitRunAux rest

def firstDigitRun (s : String) : Option String :=
  (firstDigitRunAux s.toList).map (fun l => String.mk l)

/-- Raw-bits capture from an array-literal right-hand side (functions.rs lines
217-234): numeric literals, `u16`-parseable string literals, and numeric
literals under any unary operator (the operator itself is ignored by the
source) are collected in order. -/
def arrayLiteralBits (elements : List Argument) : List Nat :=
  elements.foldl
    (fun bits el =>
      match el with
      | .expr (.numericLiteral n) => bits ++ [jsToU16 (.fin n)]
      | .expr (.stringLiteral s) =>
        match parseU16 s with
        | some v => bits ++ [v]
        | none => bits
      | .expr (.unary _ (.numericLiteral nlit)) => bits ++ [jsToU16 (.fin nlit)]
      | _ => bits)
    []

/-- The index the assignment target resolves to (functions.rs lines 193-213):
a computed member goes through `resolve_index`; a static member parses its
property name as `u16`, falling back to the first digit run. -/
def findFunctionsResolvedIdx (vars : List (String × JsNum)) :
    AssignmentTarget → Option Nat
  | .targetComputedMember _ idx => resolve_index vars idx
  | .targetStaticMember _ prop =>
    match parseU16 prop with
    | some n => some n
    | none => (firstDigitRun prop).bind parseU16
  | _ => none

/-- Raw-bits capture step (functions.rs lines 216-239): an array-literal right
side stores its literal element bits for the resolved index, independent of
whether the index is accepted as a mapping. -/
def captureIndexBits (st : FFState) (value : Nat) (right : Expression) : FFState :=
  match right with
  | .arrayExpr elements =>
    let bits := arrayLiteralBits elements
    if bits ≠ [] then { st with index_bits := mapInsert st.index_bits value bits }
    else st
  | _ => st

/-- Model of `FindFunctions::visit_assignment_expression` (functions.rs lines
186-273). -/
def findFunctionsVisitAssignment (st : FFState) (left : AssignmentTarget)
    (right : Expression) : FFState :=
  let st1 :=
    match left with
    | .targetIdent name =>
      match resolve_expr st.vars right with
      | some v => { st with vars := mapInsert st.vars name v }
      | none => st
    | _ => st
  match findFunctionsResolvedIdx st1.vars left with
  | none => st1
  | some value =>
    let st2 := captureIndexBits st1 value right
    if value = 195 ∨ value = 127 then st2
    else if value > 1000 then st2
    else
      match extract_function_name right with
      | some name => { st2 with functions := mapInsert st2.functions name value }
      | none =>
        match right with
        | .arrayExpr elements =>
          let st3 := { st2 with constants := value }
          match elements.get? 3 with
          | some (.expr (.numericLiteral num)) => { st3 with key := jsToU16 (.fin num) }
          | _ => st3
        | _ =>
          if st2.function_with_opcodes ≠ "" then
            { st2 with
              functions := mapInsert st2.functions st2.function_with_opcodes value }
          else st2

/-! ## Opcode data model (src/parser/magic_bits.rs lines 20-183) -/

structure DefaultOpcode : Type where
  bits : List Nat
deriving DecidableEq, Repr

inductive LiteralType : Type where
  | Null | NaN | Infinity | True | False | Float | Integer | String
  | NextValue | CopyState | Array | Regexp
deriving DecidableEq, Repr

structure NewLiteralTest : Type where
  bits : List Nat
  type_ : LiteralType
deriving DecidableEq, Repr

structure NewLiteralOpcode : Type where
  bits : List Nat
  tests : List (Nat × NewLiteralTest)
deriving DecidableEq, Repr

inductive UnaryOperator : Type where
  | TypeOf | Minus | Plus | LogicalNot | BitwiseNot
deriving DecidableEq, Repr

structure UnaryOpcode : Type where
  bits : List Nat
  operator : UnaryOperator
deriving DecidableEq, Repr

inductive BinaryOperator : Type where
  | Addition | Subtraction | Multiplication | Division | Modulo
  | LogicalAnd | LogicalOr | BitwiseAnd | BitwiseOr | BitwiseXor
  | LeftShift | RightShift | UnsignedRightShift | Equals | EqualsStrict
  | GreaterThan | GreaterThanOrEqual | InstanceOf | In
deriving DecidableEq, Repr

structure BinaryOpcode : Type where
  bits : List Nat
  operator : BinaryOperator
  swap : Bool
deriving DecidableEq, Repr

inductive HeapType : Type where
  | Set | Get | Init
deriving DecidableEq, Repr

structure ClosureTest : Type where
  bits : List Nat
  closure_type : HeapType
deriving DecidableEq, Repr

structure ClosureOpcode : Type where
  bits : List Nat
  closures : List (Nat × ClosureTest)
deriving DecidableEq, Repr

inductive Opcode : Type where
  | ArrayPush (o : DefaultOpcode)
  | Throw (o : DefaultOpcode)
  | Bind (o : DefaultOpcode)
  | RegisterVMFunction (o : DefaultOpcode)
  | Binary (o : BinaryOpcode)
  | Unary (o : UnaryOpcode)
  | NewLiteral (o : NewLiteralOpcode)
  | NewObject (o : DefaultOpcode)
  | Pop (o : DefaultOpcode)
  | SetProperty (o : DefaultOpcode)
  | GetProperty (o : DefaultOpcode)
  | SplicePop (o : DefaultOpcode)
  | CallFuncNoContext (o : DefaultOpcode)
  | SwapRegister (o : DefaultOpcode)
  | NewArray (o : DefaultOpcode)
  | Jump (o : DefaultOpcode)
  | JumpIf (o : DefaultOpcode)
  | Move (o : DefaultOpcode)
  | Call (o : DefaultOpcode)
  | Heap (o : ClosureOpcode)
deriving DecidableEq, Repr

/-! ## InstructionClassifier (src/parser/magic_bits.rs, `OpcodeParser` visitor) -/

structure OPState : Type where
  constants : Nat
  functions : List (String × Nat)
  opcodes : List (Nat × Opcode)
  create_function_ident : String
  window_register : Nat

/-- `OpcodeParser::new(constants, functions)` (magic_bits.rs lines 195-203). -/
def OPState.new (constants : Nat) (functions : List (String × Nat)) : OPState :=
  { constants := constants, functions := functions, opcodes := [],
    create_function_ident := "", window_register := 0 }

/-- Model of `OpcodeParser::visit_assignment_expression` (magic_bits.rs lines
349-361): an identifier assigned from a call expression whose name is pending
in the function map consumes that entry into `window_register`. -/
def opcodeParserVisitAssignment (st : OPState) (left : AssignmentTarget)
    (right : Expression) : OPState :=
  match left, right with
  | .targetIdent name, .call _ _ =>
    match mapLookup st.functions name with
    | some r => { st with functions := mapErase st.functions name, window_register := r }
    | none => st
  | _, _ => st

def isStaticMemberE : Expression → Bool
  | .staticMember _ _ => true
  | _ => false

def isBinaryE : Expression → Bool
  | .binary _ _ _ => true
  | _ => false

def isAssignmentE : Expression → Bool
  | .assignment _ _ => true
  | _ => false

/-- oxc `Argument::is_member_expression` (computed, static or private member;
the private form is folded into `otherExpr` here and cannot arise). -/
def argIsMember : Argument → Bool
  | .expr (.computedMember _ _) => true
  | .expr (.staticMember _ _) => true
  | _ => false

/-- The effective lookup name of `OpcodeParser::visit_function` (magic_bits.rs
lines 370-385): the `VM_ENTRY` sentinel for a body of more than 50 statements,
else the declared identifier (none for a body-less or anonymous small
function). -/
def opLookupName (f : Function) : Option String :=
  match f.body with
  | none => none
  | some stmts => if stmts.length > 50 then some "VM_ENTRY" else f.id

/-- The `create_function_ident` detection of `OpcodeParser::visit_function`
(magic_bits.rs lines 392-407): a final `return` of a computed member whose
object is a static member and whose index a binary expression, preceded by an
assignment expression statement. -/
def createFunctionIdentStep (st : OPState) (name : String)
    (stmts : List Statement) : OPState :=
  match stmts.getLast? with
  | some (.returnStmt (some (.computedMember mObj mExpr))) =>
    if stmts.length ≥ 2 then
      match stmts.get? (stmts.length - 2) with
      | some (.exprStmt e) =>
        if isStaticMemberE mObj ∧ isBinaryE mExpr ∧ isAssignmentE e then
          { st with create_function_ident := name }
        else st
      | _ => st
    else st
  | _ => st

/-- Model of `OpcodeParser::visit_function` (magic_bits.rs lines 363-595).

The three computations implemented by the extractor structs of
`parser/utils.rs` — a module the repository's src/ tree does not contain — are
taken as parameters, so every theorem stated over this definition holds for
all possible behaviours of that missing code:
* `processConditional` stands in for lines 423-440 (the
  `AssigmentExtractor`/`TestExtractor`/`BitExtractor`/`BinaryBitExtractor`
  walks over a ternary second-to-last statement followed by
  `process_by_test_count`);
* `processIf` stands in for lines 456-477 (the same machinery over an `if`
  second-to-last statement and the whole body);
* `extractBits` stands in for `extract_bits_for_default_opcode` (lines
  205-211, a `BitExtractor` walk over the body's statements, given the
  constants-table index).

Everything else — dispatcher-name overriding, the `create_function_ident`
detection, claiming of the pending map entry, the forced `SetProperty` for
bodies of more than 50 statements, and the tail-shape classification — is
translated from the source. -/
def opcodeParserVisitFunction
    (processConditional : OPState → Nat → Expression → List Statement → OPState)
    (processIf : OPState → Nat → Statement → List Statement → OPState)
    (extractBits : Nat → List Statement → List Nat)
    (st : OPState) (f : Function) : OPState :=
  match f.body with
  | none => st
  | some stmts =>
    match opLookupName f with
    | none => st
    | some name =>
      if stmts.isEmpty then st
      else
        let stC := createFunctionIdentStep st name stmts
        match mapLookup stC.functions name with
        | none => stC
        | some opcode_register =>
          let st1 := { stC with functions := mapErase stC.functions name }
          if stmts.length > 50 then
            { st1 with
              opcodes := mapInsert st1.opcodes opcode_register (.SetProperty ⟨[]⟩) }
          else
            let st2 :=
              if stmts.length ≥ 2 then
                match stmts.get? (stmts.length - 2) with
                | some (.exprStmt e) =>
                  match e with
                  | .conditional _ _ _ => processConditional st1 opcode_register e stmts
                  | .assignment (.targetComputedMember _ _) (.computedMember _ _) =>
                    { st1 with
                      opcodes := mapInsert st1.opcodes opcode_register
                        (.SwapRegister ⟨extractBits st1.constants stmts⟩) }
                  | _ => st1
                | some (.ifStmt t c a) => processIf st1 opcode_register (.ifStmt t c a) stmts
                | _ => st1
              else st1
            let dflt : DefaultOpcode := ⟨extractBits st2.constants stmts⟩
            let ins := fun (op : Opcode) =>
              { st2 with opcodes := mapInsert st2.opcodes opcode_register op }
            match stmts.getLast? with
            | some (.exprStmt e) =>
              match e with
              | .assignment (.targetComputedMember _ mIdx) right =>
                match right with
                | .call callee args =>
                  let stA :=
                    match args with
                    | a :: _ =>
                      if !(argIsMember a) then
                        { st2 with
                          opcodes := mapInsert st2.opcodes opcode_register (.SplicePop dflt) }
                      else st2
                    | [] => st2
                  let stB :=
                    match callee with
                    | .computedMember _ (.stringLiteral sp) =>
                      if sp = "push" then
                        { stA with
                          opcodes := mapInsert stA.opcodes opcode_register (.ArrayPush dflt) }
                      else stA
                    | _ => stA
                  match callee with
                  | .computedMember (.identifier obj) (.stringLiteral sp) =>
                    if sp = "bind" then
                      if obj.utf8ByteSize = 1 then
                        { stB with
                          opcodes := mapInsert stB.opcodes opcode_register (.Bind dflt) }
                      else if obj.utf8ByteSize = 2 then
                        { stB with
                          opcodes := mapInsert stB.opcodes opcode_register
                            (.RegisterVMFunction dflt) }
                      else stB
                    else if sp = "pop" then
                      { stB with
                        opcodes := mapInsert stB.opcodes opcode_register (.Pop dflt) }
                    else stB
                  | _ => stB
                | .objectExpr => ins (.NewObject dflt)
                | .computedMember rObj _ =>
                  match rObj with
                  | .identifier _ => ins (.GetProperty dflt)
                  | .staticMember _ _ => ins (.SetProperty dflt)
                  | _ => ins (.SetProperty dflt)
                | .newExpr _ _ => ins (.CallFuncNoContext dflt)
                | .arrayExpr _ => ins (.NewArray dflt)
                | .identifier _ =>
                  match mIdx with
                  | .numericLiteral _ => ins (.Jump dflt)
                  | _ =>
                    let is_move : Bool :=
                      if stmts.length ≥ 2 then
                        match stmts.get? (stmts.length - 2) with
                        | some (.exprStmt (.assignment (.targetIdent _) _)) => true
                        | _ => false
                      else false
                    if is_move then ins (.Move dflt) else ins (.SetProperty dflt)
                | .conditional _ _ _ => ins (.Call dflt)
                | _ => ins (.SetProperty dflt)
              | .logical _ _ _ => ins (.JumpIf dflt)
              | _ => st2
            | some (.ifStmt _ _ _) => st2
            | some (.throwStmt _) => ins (.Throw dflt)
            | _ => st2

/-! ## PayloadLocator (src/parser/vm.rs, `ScriptVisitor`) -/

structure ScriptState : Type where
  initial_vm : Option String
  main_vm : Option String
  compressor_charset : Option String
  init_argument : Option String
deriving DecidableEq, Repr

/-- `ScriptVisitor::default()`. -/
def ScriptState.initial : ScriptState :=
  { initial_vm := none, main_vm := none, compressor_charset := none, init_argument := none }

/-- oxc `Expression::is_identifier_reference`. -/
def isIdentifierReference : Expression → Bool
  | .identifier _ => true
  | _ => false

/-- Model of `ScriptVisitor::visit_call_expression` (vm.rs lines 14-59): the
effect of visiting one call expression, given its callee and argument list. -/
def scriptVisitCall (st : ScriptState) (callee : Expression)
    (args : List Argument) : ScriptState :=
  if !(isIdentifierReference callee) then st
  else
    match args with
    | [] => st
    | a :: _ =>
      match a with
      | .expr (.stringLiteral s) =>
        let len := s.utf8ByteSize
        if len > 300 then
          if len ≥ 1000 then { st with main_vm := some s }
          else if st.initial_vm.isNone then { st with initial_vm := some s }
          else st
        else st
      | _ => st

/-- The payload locator over the call expressions of one traversal, in
traversal (pre-)order. -/
def scriptVisitCalls (st : ScriptState)
    (calls : List (Expression × List Argument)) : ScriptState :=
  calls.foldl (fun acc c => scriptVisitCall acc c.1 c.2) st

/-- Model of `ScriptVisitor::visit_string_literal` (vm.rs lines 61-76). -/
def scriptVisitStringLiteral (st : ScriptState) (v : String) : ScriptState :=
  let st1 :=
    if v.utf8ByteSize = 65 ∧ v.contains '$' ∧ v.contains '-' ∧ v.contains '+' then
      { st with compressor_charset := some v }
    else st
  if v.utf8ByteSize > 20 ∧ v.startsWith "/" ∧ v.endsWith "/" ∧
      (v.splitOn ":").length = 3 ∧ (v.splitOn "/b/").length = 1 then
    { st1 with init_argument := some v }
  else st1

/-! ## KeyOffsetExtractor (src/parser/offset.rs, `FindOffset`)

`FindOffset` is a `VisitMut`: visiting an assignment inside a `for` statement
whose right side has the key shape *moves* that right side into `key_expr`,
leaving a null literal in the tree (`AstBuilder::move_expression`).  The
traversal is therefore modelled as a tree transformer threading the state and
returning the (possibly mutated) node.  Child nodes are visited in oxc field
order. -/

structure FOState : Type where
  in_for : Bool
  key_expr : Option Expression
  offset : Int

/-- `FindOffset::new` (offset.rs lines 57-65). -/
def FOState.initial : FOState := { in_for := false, key_expr := none, offset := 0 }

/-- The byte-masking key shape (offset.rs lines 80-88): a binary `&` whose
right operand is a numeric literal casting to 255 as `u32`. -/
def isKeyShape : Expression → Bool
  | .binary "&" _ (.numericLiteral num) => jsToU32 (.fin num) == 255
  | _ => false

/-- The offset pattern of `visit_binary_expression` (offset.rs lines 95-122):
for a `+` or `^` node pairing a numeric literal with a call expression, the
literal cast to `i64`; otherwise nothing. -/
def offsetLit (op : String) (l r : Expression) : Option Int :=
  if op = "+" ∨ op = "^" then
    match l, r with
    | .numericLiteral v, .call _ _ => some (jsToI64 (.fin v))
    | .call _ _, .numericLiteral v => some (jsToI64 (.fin v))
    | _, _ => none
  else none

mutual

/-- `FindOffset`'s expression traversal: the overridden assignment and binary
handlers, the generic `walk_expression` everywhere else. -/
def foExpr (st : FOState) : Expression → FOState × Expression
  | .assignment left right =>
    if st.in_for ∧ isKeyShape right then
      -- the match moves `right` into `key_expr` and leaves a null literal;
      -- the continued walk visits the target and then the (leaf) null literal
      let st1 := { st with key_expr := some right }
      let (st2, left2) := foTarget st1 left
      (st2, .assignment left2 Expression.nullLiteral)
    else
      let (st2, left2) := foTarget st left
      let (st3, right3) := foExpr st2 right
      (st3, .assignment left2 right3)
  | .binary op l r =>
    match offsetLit op l r with
    | some lit =>
      if lit ≠ 0 then ({ st with offset := wrapI16 lit }, .binary op l r)
      else
        let (st1, l1) := foExpr st l
        let (st2, r2) := foExpr st1 r
        (st2, .binary op l1 r2)
    | none =>
      let (st1, l1) := foExpr st l
      let (st2, r2) := foExpr st1 r
      (st2, .binary op l1 r2)
  | .numericLiteral v => (st, .numericLiteral v)
  | .stringLiteral s => (st, .stringLiteral s)
  | .identifier n => (st, .identifier n)
  | .nullLiteral => (st, .nullLiteral)
  | .objectExpr => (st, .objectExpr)
  | .otherExpr => (st, .otherExpr)
  | .parenthesized e =>
    let (st1, e1) := foExpr st e
    (st1, .parenthesized e1)
  | .sequence es =>
    let (st1, es1) := foExprList st es
    (st1, .sequence es1)
  | .unary op a =>
    let (st1, a1) := foExpr st a
    (st1, .unary op a1)
  | .logical op l r =>
    let (st1, l1) := foExpr st l
    let (st2, r2) := foExpr st1 r
    (st2, .logical op l1 r2)
  | .conditional t c a =>
    let (st1, t1) := foExpr st t
    let (st2, c2) := foExpr st1 c
    let (st3, a3) := foExpr st2 a
    (st3, .conditional t1 c2 a3)
  | .call callee args =>
    let (st1, callee1) := foExpr st callee
    let (st2, args2) := foArgList st1 args
    (st2, .call callee1 args2)
  | .newExpr callee args =>
    let (st1, callee1) := foExpr st callee
    let (st2, args2) := foArgList st1 args
    (st2, .newExpr callee1 args2)
  | .computedMember o e =>
    let (st1, o1) := foExpr st o
    let (st2, e2) := foExpr st1 e
    (st2, .computedMember o1 e2)
  | .staticMember o p =>
    let (st1, o1) := foExpr st o
    (st1, .staticMember o1 p)
  | .arrayExpr els =>
    let (st1, els1) := foArgList st els
    (st1, .arrayExpr els1)
termination_by e => sizeOf e

def foExprList (st : FOState) : List Expression → FOState × List Expression
  | [] => (st, [])
  | e :: rest =>
    let (st1, e1) := foExpr st e
    let (st2, rest2) := foExprList st1 rest
    (st2, e1 :: rest2)
termination_by es => sizeOf es

def foArg (st : FOState) : Argument → FOState × Argument
  | .expr e =>
    let (st1, e1) := foExpr st e
    (st1, .expr e1)
  | .nonExpr => (st, .nonExpr)
termination_by a => sizeOf a

def foArgList (st : FOState) : List Argument → FOState × List Argument
  | [] => (st, [])
  | a :: rest =>
    let (st1, a1) := foArg st a
    let (st2, rest2) := foArgList st1 rest
    (st2, a1 :: rest2)
termination_by l => sizeOf l

def foTarget (st : FOState) : AssignmentTarget → FOState × AssignmentTarget
  | .targetIdent n => (st, .targetIdent n)
  | .targetComputedMember o e =>
    let (st1, o1) := foExpr st o
    let (st2, e2) := foExpr st1 e
    (st2, .targetComputedMember o1 e2)
  | .targetStaticMember o p =>
    let (st1, o1) := foExpr st o
    (st1, .targetStaticMember o1 p)
  | .targetOther => (st, .targetOther)
termination_by t => sizeOf t

def foOptExpr (st : FOState) : Option Expression → FOState × Option Expression
  | none => (st, none)
  | some e =>
    let (st1, e1) := foExpr st e
    (st1, some e1)

def foStmt (st : FOState) : Statement → FOState × Statement
  | .exprStmt e =>
    let (st1, e1) := foExpr st e
    (st1, .exprStmt e1)
  | .returnStmt oe =>
    let (st1, oe1) := foOptExpr st oe
    (st1, .returnStmt oe1)
  | .ifStmt t c a =>
    let (st1, t1) := foExpr st t
    let (st2, c2) := foStmt st1 c
    match a with
    | none => (st2, .ifStmt t1 c2 none)
    | some alt =>
      let (st3, alt3) := foStmt st2 alt
      (st3, .ifStmt t1 c2 (some alt3))
  | .throwStmt e =>
    let (st1, e1) := foExpr st e
    (st1, .throwStmt e1)
  | .forStmt finit ftest fupdate body =>
    let st0 := { st with in_for := true }
    let (st1, finit1) := foOptExpr st0 finit
    let (st2, ftest2) := foOptExpr st1 ftest
    let (st3, fupdate3) := foOptExpr st2 fupdate
    let (st4, body4) := foStmt st3 body
    ({ st4 with in_for := false }, .forStmt finit1 ftest2 fupdate3 body4)
  | .block ss =>
    let (st1, ss1) := foStmts st ss
    (st1, .block ss1)
  | .funcDecl fid fbody =>
    match fbody with
    | none => (st, .funcDecl fid none)
    | some ss =>
      let (st1, ss1) := foStmts st ss
      (st1, .funcDecl fid (some ss1))
  | .otherStmt => (st, .otherStmt)
termination_by s => sizeOf s

def foStmts (st : FOState) : List Statement → FOState × List Statement
  | [] => (st, [])
  | s :: rest =>
    let (st1, s1) := foStmt st s
    let (st2, rest2) := foStmts st1 rest
    (st2, s1 :: rest2)
termination_by l => sizeOf l

end

/-! ## DisassemblyOrchestrator (src/disassembler/disassemble.rs,
`parse_script_interpreter`) -/

/-- The local `get_bits` helper (disassemble.rs lines 38-49). -/
def get_bits : Opcode → List Nat
  | .ArrayPush o => o.bits
  | .Throw o => o.bits
  | .Bind o => o.bits
  | .RegisterVMFunction o => o.bits
  | .NewObject o => o.bits
  | .Pop o => o.bits
  | .SetProperty o => o.bits
  | .GetProperty o => o.bits
  | .SplicePop o => o.bits
  | .CallFuncNoContext o => o.bits
  | .SwapRegister o => o.bits
  | .NewArray o => o.bits
  | .Jump o => o.bits
  | .JumpIf o => o.bits
  | .Move o => o.bits
  | .Call o => o.bits
  | .Binary o => o.bits
  | .Unary o => o.bits
  | .NewLiteral o => o.bits
  | .Heap o => o.bits

/-- The normalized-bits → opcode-index map (disassemble.rs lines 54-62), built
by folding over the opcode table in an iteration order given by the list. -/
def buildNormalizedMap (opcodes : List (Nat × Opcode)) : List (List Nat × Nat) :=
  opcodes.foldl
    (fun m kv =>
      let normalized := normalize_bits (get_bits kv.2)
      if normalized ≠ [] then mapInsert m normalized kv.1 else m)
    []

/-- One iteration of the function-to-opcode mapping loop (disassemble.rs lines
65-101), processing the pair `(function_name, idx)` against the accumulated
`opcode_to_function_name` map (keyed here by the numeric index; the source
keys by `idx.to_string()`, an injective image of it). -/
def disassembleMapStep (opcodes : List (Nat × Opcode))
    (index_bits : List (Nat × List Nat)) (normMap : List (List Nat × Nat))
    (acc : List (Nat × String)) (fn : String × Nat) : List (Nat × String) :=
  let function_name := fn.1
  let idx := fn.2
  if idx = 195 ∨ idx = 127 ∨ idx > 1000 then acc
  else if (mapLookup opcodes idx).isSome then mapInsert acc idx function_name
  else
    match mapLookup index_bits idx with
    | some candidate =>
      match mapLookup normMap (normalize_bits candidate) with
      | some matched => mapInsert acc matched function_name
      | none => acc
    | none => acc

/-- The whole mapping loop, with the hash-map iteration order of
`find_functions.functions` made explicit as the input list. -/
def opcodeToFunctionName (opcodes : List (Nat × Opcode))
    (index_bits : List (Nat × List Nat))
    (functions : List (String × Nat)) : List (Nat × String) :=
  functions.foldl (disassembleMapStep opcodes index_bits (buildNormalizedMap opcodes)) []

/-- Observable completion of `parse_script_interpreter`: normal return,
propagated `anyhow` error (the `.context(..)?` path), or process panic (the
`.expect(..)` path). -/
inductive DisassembleOutcome : Type where
  | ok (key_byte : Nat) (offset : Int) (initial_vm : String)
  | errNotFound (message : String)
  | panicked (message : String)
deriving DecidableEq, Repr

/-- Modelled from the spec: `RecursiveDisassembler::new` lives in the
disassembler module that is not present under src/ (only `disassemble.rs` is).
The spec scopes the bytecode executor as an external collaborator and states
that the orchestrator fails only on the three missing artifacts; at this call
site the key byte is already a plain `u16` (defaulted to 0 by
`FindFunctions::default`), so its absence is no longer representable and the
construction is modelled as succeeding with the values handed to it. -/
def recursiveDisassemblerNew (key_byte : Nat) (offset : Int)
    (initial_vm : String) : DisassembleOutcome :=
  .ok key_byte offset initial_vm

/-- Model of the failure tail of `parse_script_interpreter` (disassemble.rs
lines 103-125): the initial-payload lookup is `.context("could not find
initial vm")?` — a propagated error — while the key-expression lookup is
`.expect("Key expression not found")` — a panic — and the key byte is passed
through unchecked. -/
def parse_script_interpreter_outcome (initial_vm : Option String)
    (key_expr : Option Expression) (key_byte : Nat) (offset : Int) :
    DisassembleOutcome :=
  match initial_vm with
  | none => .errNotFound "could not find initial vm"
  | some s =>
    match key_expr with
    | none => .panicked "Key expression not found"
    | some _ => recursiveDisassemblerNew key_byte offset s

/-- Is the outcome a propagated (`Err`) failure, as opposed to a panic or
success? -/
def isPropagatedError : DisassembleOutcome → Bool
  | .errNotFound _ => true
  | _ => false

/-- The composed pipeline as `parse_script_interpreter` runs it: `FindOffset`
over the program supplies `key_expr` and `offset`, the `ScriptVisitor` fold
over the traversed call expressions supplies the initial payload, and
`FindFunctions`' key byte is taken as input. -/
def parse_script_pipeline (program : List Statement)
    (calls : List (Expression × List Argument)) (key_byte : Nat) :
    DisassembleOutcome :=
  let fo := (foStmts FOState.initial program).1
  let sv := scriptVisitCalls ScriptState.initial calls
  parse_script_interpreter_outcome sv.initial_vm fo.key_expr key_byte fo.offset

/-! ## Claim theorems -/

/-- C7: `normalize_bits [195,188,195,188,5,127,6]` equals `[5,6]`, and
`normalize_bits [195,7]` equals `[195,7]` — a lone 195 not followed by 188 is
preserved. -/
theorem claim_C7_normalize_bits_examples :
    normalize_bits [195, 188, 195, 188, 5, 127, 6] = [5, 6] ∧
    normalize_bits [195, 7] = [195, 7] := by
  constructor <;> simp [normalize_bits]

/-- C2 counterexample: `normalize_bits` is not idempotent.  On
`[195, 195, 188, 188]` one application yields `[195, 188]` (the overlapping
pair is skipped over), and a second application strips that freshly adjacent
pair to `[]`. -/
theorem claim_C2_counterexample :
    normalize_bits (normalize_bits [195, 195, 188, 188]) ≠
      normalize_bits [195, 195, 188, 188] := by
  simp [normalize_bits]

/-- C2 amended: `normalize_bits` is idempotent exactly on the inputs whose
output contains no adjacent `(195, 188)` pair; stripping can itself create
such a pair (see the counterexample), in which case a second application
differs. -/
theorem claim_C2_conditional_idempotent (x : List Nat)
    (h : hasMarkerPair (normalize_bits x) = false) :
    normalize_bits (normalize_bits x) = normalize_bits x :=
  normalize_bits_fixpoint (normalize_bits x) (not_mem_normalize_bits_127 x) h

/-- C2 witness: the amended idempotence applied to a concrete input whose
output is pair-free. -/
theorem claim_C2_witness :
    hasMarkerPair (normalize_bits [195, 188, 5, 127, 6]) = false ∧
    normalize_bits (normalize_bits [195, 188, 5, 127, 6]) =
      normalize_bits [195, 188, 5, 127, 6] :=
  ⟨by simp [normalize_bits, hasMarkerPair],
   claim_C2_conditional_idempotent [195, 188, 5, 127, 6]
     (by simp [normalize_bits, hasMarkerPair])⟩

/-- C8: the constant folder resolves `2+3*4` to 14, `10 & 255` to 10, `!0` to
1 and `1 ?? 2` to 1, and an expression referencing an identifier absent from
the variable table resolves to no value rather than failing. -/
theorem claim_C8_constant_folding :
    resolve_expr [] (.binary "+" (.numericLiteral 2)
      (.binary "*" (.numericLiteral 3) (.numericLiteral 4))) = some (.fin 14) ∧
    resolve_expr [] (.binary "&" (.numericLiteral 10) (.numericLiteral 255)) =
      some (.fin 10) ∧
    resolve_expr [] (.unary "!" (.numericLiteral 0)) = some (.fin 1) ∧
    resolve_expr [] (.logical "??" (.numericLiteral 1) (.numericLiteral 2)) =
      some (.fin 1) ∧
    ∀ (vars : List (String × JsNum)) (name : String),
      mapLookup vars name = none → resolve_expr vars (.identifier name) = none := by
  refine ⟨?_, ?_, ?_, ?_, ?_⟩
  · simp [resolve_expr, jsAdd, jsMul]
    norm_num
  · simp [resolve_expr, jsToI64, ratTrunc]
    decide
  · simp [resolve_expr, jsEqZero]
  · simp [resolve_expr]
  · intro vars name h
    simp [resolve_expr, h]

/-- C8 witness: the unresolved-identifier clause applied at the empty variable
table. -/
theorem claim_C8_witness :
    mapLookup ([] : List (String × JsNum)) "someUnknown" = none ∧
    resolve_expr [] (.identifier "someUnknown") = none :=
  ⟨rfl, claim_C8_constant_folding.2.2.2.2 [] "someUnknown" rfl⟩

theorem createFunctionIdentStep_preserves (st : OPState) (name : String)
    (stmts : List Statement) :
    (createFunctionIdentStep st name stmts).functions = st.functions ∧
    (createFunctionIdentStep st name stmts).opcodes = st.opcodes := by
  unfold createFunctionIdentStep
  split <;> try exact ⟨rfl, rfl⟩
  split <;> try exact ⟨rfl, rfl⟩
  split <;> try exact ⟨rfl, rfl⟩
  split <;> exact ⟨rfl, rfl⟩

/-- A function whose effective name is not pending in the map writes no
opcode: every insertion in `visit_function` happens under the successful
`functions.remove(name)`. -/
theorem opcodeParserVisitFunction_no_pending
    (pc : OPState → Nat → Expression → List Statement → OPState)
    (pifn : OPState → Nat → Statement → List Statement → OPState)
    (eb : Nat → List Statement → List Nat)
    (st : OPState) (f : Function) (name : String)
    (hname : opLookupName f = some name)
    (hmiss : mapLookup st.functions name = none) :
    (opcodeParserVisitFunction pc pifn eb st f).opcodes = st.opcodes := by
  unfold opcodeParserVisitFunction
  cases hb : f.body with
  | none => rfl
  | some stmts =>
    rw [hname]
    by_cases hie : stmts.isEmpty
    · simp [hie]
    · have hC := createFunctionIdentStep_preserves st name stmts
      have hm : mapLookup (createFunctionIdentStep st name stmts).functions name = none := by
        rw [hC.1]; exact hmiss
      simp only [hie, if_false, Bool.false_eq_true, hm]
      exact hC.2

/-- C5: a function body of more than 50 top-level statements, named or
anonymous, is treated as the dispatcher: `FindFunctions` overrides its
effective name with the `VM_ENTRY` sentinel (recording it as the
opcode-holding function), and `OpcodeParser`, when that sentinel is pending at
index `r`, forces the opcode at `r` to the default `SetProperty` with empty
bits instead of running the statement-shape classification — for every
possible behaviour of the extractor parameters. -/
theorem claim_C5_dispatcher_threshold
    (f : Function) (stmts : List Statement) (st : FFState) (ost : OPState) (r : Nat)
    (pc : OPState → Nat → Expression → List Statement → OPState)
    (pifn : OPState → Nat → Statement → List Statement → OPState)
    (eb : Nat → List Statement → List Nat)
    (hbody : f.body = some stmts) (hbig : stmts.length > 50)
    (hpend : mapLookup ost.functions "VM_ENTRY" = some r) :
    (findFunctionsVisitFunction st f).last_function_name = "VM_ENTRY" ∧
    (findFunctionsVisitFunction st f).function_with_opcodes = "VM_ENTRY" ∧
    (opcodeParserVisitFunction pc pifn eb ost f).opcodes =
      mapInsert ost.opcodes r (.SetProperty ⟨[]⟩) := by
  have hne : stmts.isEmpty = false := by
    cases stmts with
    | nil => simp at hbig
    | cons a l => rfl
  refine ⟨?_, ?_, ?_⟩
  · simp [findFunctionsVisitFunction, hbody, hbig]
  · simp [findFunctionsVisitFunction, hbody, hbig]
  · have hC := createFunctionIdentStep_preserves ost "VM_ENTRY" stmts
    have hm : mapLookup (createFunctionIdentStep ost "VM_ENTRY" stmts).functions
        "VM_ENTRY" = some r := by rw [hC.1]; exact hpend
    have hname : opLookupName f = some "VM_ENTRY" := by
      simp [opLookupName, hbody, hbig]
    unfold opcodeParserVisitFunction
    rw [hbody, hname]
    simp only [hne, Bool.false_eq_true, if_false, hm, hbig, if_pos hbig]
    rw [hC.2]
    simp

/-- Concrete 51-statement anonymous function used by the C5 witness. -/
def bigFunction : Function :=
  { id := none, body := some (List.replicate 51 Statement.otherStmt) }

/-- C5 witness: the dispatcher theorem applied to a concrete anonymous
51-statement function pending at index 7. -/
theorem claim_C5_witness :
    (List.replicate 51 Statement.otherStmt).length > 50 ∧
    mapLookup (OPState.new 0 [("VM_ENTRY", 7)]).functions "VM_ENTRY" = some 7 ∧
    ((findFunctionsVisitFunction FFState.initial bigFunction).last_function_name = "VM_ENTRY" ∧
     (findFunctionsVisitFunction FFState.initial bigFunction).function_with_opcodes = "VM_ENTRY" ∧
     (opcodeParserVisitFunction (fun s _ _ _ => s) (fun s _ _ _ => s) (fun _ _ => [])
        (OPState.new 0 [("VM_ENTRY", 7)]) bigFunction).opcodes =
       mapInsert (OPState.new 0 [("VM_ENTRY", 7)]).opcodes 7 (.SetProperty ⟨[]⟩)) :=
  ⟨by simp, rfl,
   claim_C5_dispatcher_threshold bigFunction (List.replicate 51 Statement.otherStmt)
     FFState.initial (OPState.new 0 [("VM_ENTRY", 7)]) 7
     (fun s _ _ _ => s) (fun s _ _ _ => s) (fun _ _ => [])
     rfl (by simp) rfl⟩

/-- C10: an assignment of a call expression to a plain identifier pending in
the function map consumes the entry: the index becomes `window_register`, no
opcode is written, the name is gone from the pending pool, and any later
function node whose effective name is that same name writes no opcode either
(for every behaviour of the missing-extractor parameters). -/
theorem claim_C10_pending_consumed_by_call_assignment
    (st : OPState) (name : String) (c : Expression) (args : List Argument) (r : Nat)
    (hpend : mapLookup st.functions name = some r) :
    (opcodeParserVisitAssignment st (.targetIdent name) (.call c args)).window_register = r ∧
    (opcodeParserVisitAssignment st (.targetIdent name) (.call c args)).opcodes = st.opcodes ∧
    mapLookup (opcodeParserVisitAssignment st (.targetIdent name) (.call c args)).functions
      name = none ∧
    ∀ (pc : OPState → Nat → Expression → List Statement → OPState)
      (pifn : OPState → Nat → Statement → List Statement → OPState)
      (eb : Nat → List Statement → List Nat) (f : Function),
      opLookupName f = some name →
      (opcodeParserVisitFunction pc pifn eb
          (opcodeParserVisitAssignment st (.targetIdent name) (.call c args)) f).opcodes =
        (opcodeParserVisitAssignment st (.targetIdent name) (.call c args)).opcodes := by
  have hstep : opcodeParserVisitAssignment st (.targetIdent name) (.call c args) =
      { st with functions := mapErase st.functions name, window_register := r } := by
    simp [opcodeParserVisitAssignment, hpend]
  refine ⟨by rw [hstep], by rw [hstep], ?_, ?_⟩
  · rw [hstep]
    exact mapLookup_mapErase_self st.functions name
  · intro pc pifn eb f hname
    refine opcodeParserVisitFunction_no_pending pc pifn eb _ f name hname ?_
    rw [hstep]
    exact mapLookup_mapErase_self st.functions name

/-- C10 witness: the consumption theorem at a concrete state with `fn1`
pending at index 3, and a later function declaration named `fn1`. -/
theorem claim_C10_witness :
    mapLookup (OPState.new 0 [("fn1", 3)]).functions "fn1" = some 3 ∧
    opLookupName { id := some "fn1", body := some [Statement.otherStmt] } = some "fn1" ∧
    ((opcodeParserVisitAssignment (OPState.new 0 [("fn1", 3)])
        (.targetIdent "fn1") (.call (.identifier "g") [])).window_register = 3 ∧
     (opcodeParserVisitAssignment (OPState.new 0 [("fn1", 3)])
        (.targetIdent "fn1") (.call (.identifier "g") [])).opcodes =
       (OPState.new 0 [("fn1", 3)]).opcodes ∧
     mapLookup (opcodeParserVisitAssignment (OPState.new 0 [("fn1", 3)])
        (.targetIdent "fn1") (.call (.identifier "g") [])).functions "fn1" = none ∧
     (opcodeParserVisitFunction (fun s _ _ _ => s) (fun s _ _ _ => s) (fun _ _ => [])
        (opcodeParserVisitAssignment (OPState.new 0 [("fn1", 3)])
          (.targetIdent "fn1") (.call (.identifier "g") []))
        { id := some "fn1", body := some [Statement.otherStmt] }).opcodes =
       (opcodeParserVisitAssignment (OPState.new 0 [("fn1", 3)])
          (.targetIdent "fn1") (.call (.identifier "g") [])).opcodes) := by
  refine ⟨rfl, rfl, ?_⟩
  have h := claim_C10_pending_consumed_by_call_assignment
    (OPState.new 0 [("fn1", 3)]) "fn1" (.identifier "g") [] 3 rfl
  exact ⟨h.1, h.2.1, h.2.2.1,
    h.2.2.2 (fun s _ _ _ => s) (fun s _ _ _ => s) (fun _ _ => [])
      { id := some "fn1", body := some [Statement.otherStmt] } rfl⟩

theorem captureIndexBits_preserves (st : FFState) (v : Nat) (r : Expression) :
    (captureIndexBits st v r).functions = st.functions := by
  unfold captureIndexBits
  split
  · simp only []
    split <;> rfl
  · rfl

/-- C6: an assignment whose target index resolves to 195, 127 or a value
greater than 1000 records no entry in the function-name-to-index map, and the
orchestrator's mapping loop emits no function-to-opcode entry for such an
index either. -/
theorem claim_C6_noise_index_dropped
    (st : FFState) (left : AssignmentTarget) (right : Expression) (v : Nat)
    (nm : String) (opcodes : List (Nat × Opcode)) (index_bits : List (Nat × List Nat))
    (normMap : List (List Nat × Nat)) (acc : List (Nat × String))
    (hres : findFunctionsResolvedIdx st.vars left = some v)
    (hnoise : v = 195 ∨ v = 127 ∨ v > 1000) :
    (findFunctionsVisitAssignment st left right).functions = st.functions ∧
    disassembleMapStep opcodes index_bits normMap acc (nm, v) = acc := by
  constructor
  · cases left with
    | targetIdent name => simp [findFunctionsResolvedIdx] at hres
    | targetOther => simp [findFunctionsResolvedIdx] at hres
    | targetComputedMember o ie =>
      simp only [findFunctionsVisitAssignment]
      rw [hres]
      rcases hnoise with h | h | h <;>
        simp [h, captureIndexBits_preserves]
    | targetStaticMember o p =>
      simp only [findFunctionsVisitAssignment]
      rw [hres]
      rcases hnoise with h | h | h <;>
        simp [h, captureIndexBits_preserves]
  · unfold disassembleMapStep
    rcases hnoise with h | h | h <;> simp [h]

/-- C6 witness: a computed-member assignment whose index literal is the marker
value 195, fed through both the classifier step and the orchestrator's mapping
step. -/
theorem claim_C6_witness :
    findFunctionsResolvedIdx FFState.initial.vars
      (.targetComputedMember (.identifier "a") (.numericLiteral 195)) = some 195 ∧
    ((findFunctionsVisitAssignment FFState.initial
        (.targetComputedMember (.identifier "a") (.numericLiteral 195))
        (.identifier "f")).functions = FFState.initial.functions ∧
     disassembleMapStep [] [] [] [] ("f", 195) = []) := by
  have hres : findFunctionsResolvedIdx FFState.initial.vars
      (.targetComputedMember (.identifier "a") (.numericLiteral 195)) = some 195 := by
    simp [findFunctionsResolvedIdx, resolve_index, resolve_expr, jsToU16, ratTrunc,
      FFState.initial]
  exact ⟨hres,
    claim_C6_noise_index_dropped FFState.initial
      (.targetComputedMember (.identifier "a") (.numericLiteral 195))
      (.identifier "f") 195 "f" [] [] [] [] hres (Or.inl rfl)⟩

/-- A 400-byte payload string used by concrete counterexamples (length
strictly between 300 and 999, so it qualifies as the initial VM payload). -/
def payload400 : String := String.mk (List.replicate 400 'a')

/-- C1 amended (corrected claim): the only propagated NotFound-class failure
of `parse_script_interpreter` is the absent initial VM payload (the
`.context("could not find initial vm")?` path); an absent key expression
terminates in a panic (`.expect("Key expression not found")`), not a
propagated error; and the key byte is never checked — any value, including
the `FindFunctions::default` value 0 left by an absent key, yields success. -/
theorem claim_C1_amended_failure_modes :
    (∀ (ke : Option Expression) (kb : Nat) (off : Int),
        parse_script_interpreter_outcome none ke kb off =
          .errNotFound "could not find initial vm") ∧
    (∀ (s : String) (kb : Nat) (off : Int),
        parse_script_interpreter_outcome (some s) none kb off =
          .panicked "Key expression not found") ∧
    (∀ (s : String) (e : Expression) (kb : Nat) (off : Int),
        parse_script_interpreter_outcome (some s) (some e) kb off = .ok kb off s) :=
  ⟨fun _ _ _ => rfl, fun _ _ _ => rfl, fun _ _ _ _ => rfl⟩

set_option maxRecDepth 8192 in
/-- C1 counterexample: a program with an initial VM payload but no key
expression makes `parse_script_interpreter` panic instead of reporting a
propagated NotFound-class error. -/
theorem claim_C1_counterexample :
    parse_script_pipeline [] [(.identifier "f", [.expr (.stringLiteral payload400)])] 0 =
      .panicked "Key expression not found" ∧
    isPropagatedError
      (parse_script_pipeline [] [(.identifier "f", [.expr (.stringLiteral payload400)])] 0) =
      false := by
  have hfo : foStmts FOState.initial [] = (FOState.initial, []) := by simp [foStmts]
  have hlen : payload400.utf8ByteSize = 400 := by decide
  have hsv : (scriptVisitCalls ScriptState.initial
      [(.identifier "f", [.expr (.stringLiteral payload400)])]).initial_vm =
      some payload400 := by
    simp [scriptVisitCalls, scriptVisitCall, isIdentifierReference, ScriptState.initial, hlen]
  constructor
  · unfold parse_script_pipeline
    rw [hfo]
    simp only []
    rw [hsv]
    rfl
  · unfold parse_script_pipeline
    rw [hfo]
    simp only []
    rw [hsv]
    rfl

/-- Specification-side condition for the main payload (vm.rs lines 44-49):
identifier callee, first argument a string literal of byte length at least
1000. -/
def qualifiesMain (c : Expression × List Argument) : Option String :=
  if isIdentifierReference c.1 then
    match c.2 with
    | .expr (.stringLiteral s) :: _ =>
      if s.utf8ByteSize ≥ 1000 then some s else none
    | _ => none
  else none

/-- Specification-side condition for the initial payload: identifier callee,
first argument a string literal of byte length strictly between 300 and 1000
(the source tests `len > 300`, so a length of exactly 300 does not qualify). -/
def qualifiesInit (c : Expression × List Argument) : Option String :=
  if isIdentifierReference c.1 then
    match c.2 with
    | .expr (.stringLiteral s) :: _ =>
      if 300 < s.utf8ByteSize ∧ s.utf8ByteSize < 1000 then some s else none
    | _ => none
  else none

theorem scriptVisitCall_main (st : ScriptState) (callee : Expression)
    (args : List Argument) :
    (scriptVisitCall st callee args).main_vm =
      match qualifiesMain (callee, args) with
      | some s => some s
      | none => st.main_vm := by
  unfold scriptVisitCall qualifiesMain
  by_cases hid : isIdentifierReference callee
  · simp only [hid, Bool.not_true, Bool.false_eq_true, if_false, if_true]
    cases args with
    | nil => simp
    | cons a rest =>
      cases a with
      | nonExpr => simp
      | expr e =>
        cases e <;> try simp
        all_goals (split_ifs <;> first | omega | (simp_all; try omega))
  · simp [hid]

theorem scriptVisitCall_init (st : ScriptState) (callee : Expression)
    (args : List Argument) :
    (scriptVisitCall st callee args).initial_vm =
      match st.initial_vm with
      | some s => some s
      | none => qualifiesInit (callee, args) := by
  unfold scriptVisitCall qualifiesInit
  by_cases hid : isIdentifierReference callee
  · simp only [hid, Bool.not_true, Bool.false_eq_true, if_false, if_true]
    cases args with
    | nil => cases h : st.initial_vm <;> simp [h]
    | cons a rest =>
      cases a with
      | nonExpr => cases h : st.initial_vm <;> simp [h]
      | expr e =>
        cases e <;> try (cases h : st.initial_vm <;> simp [h])
        all_goals (cases h : st.initial_vm)
        all_goals (split_ifs <;> simp_all <;> omega)
  · cases h : st.initial_vm <;> simp [hid, h]

theorem getLast?_cons_eq {α : Type} (a : α) (l : List α) :
    (a :: l).getLast? = some ((l.getLast?).getD a) := by
  cases l with
  | nil => rfl
  | cons b m =>
    rw [List.getLast?_cons_cons]
    obtain ⟨x, hx⟩ := Option.isSome_iff_exists.mp
      ((List.getLast?_isSome (l := b :: m)).mpr (by simp))
    rw [hx]
    rfl

/-- The fold of the payload locator keeps the last main-qualifying match. -/
theorem scriptVisitCalls_main (calls : List (Expression × List Argument))
    (st : ScriptState) :
    (scriptVisitCalls st calls).main_vm =
      match (calls.filterMap qualifiesMain).getLast? with
      | some s => some s
      | none => st.main_vm := by
  induction calls generalizing st with
  | nil => simp [scriptVisitCalls]
  | cons c rest ih =>
    have hstep : scriptVisitCalls st (c :: rest) =
        scriptVisitCalls (scriptVisitCall st c.1 c.2) rest := rfl
    rw [hstep, ih]
    cases hq : qualifiesMain c with
    | none =>
      simp [List.filterMap_cons, hq, scriptVisitCall_main st c.1 c.2]
    | some s =>
      simp only [List.filterMap_cons, hq, getLast?_cons_eq]
      cases hrest : (rest.filterMap qualifiesMain).getLast? with
      | some t => simp [hrest]
      | none =>
        simp [hrest, scriptVisitCall_main st c.1 c.2, hq]

/-- The fold of the payload locator keeps the first init-qualifying match,
and never overrides an initial payload already recorded. -/
theorem scriptVisitCalls_init (calls : List (Expression × List Argument))
    (st : ScriptState) :
    (scriptVisitCalls st calls).initial_vm =
      match st.initial_vm with
      | some s => some s
      | none => (calls.filterMap qualifiesInit).head? := by
  induction calls generalizing st with
  | nil => cases h : st.initial_vm <;> simp [scriptVisitCalls, h]
  | cons c rest ih =>
    have hstep : scriptVisitCalls st (c :: rest) =
        scriptVisitCalls (scriptVisitCall st c.1 c.2) rest := rfl
    rw [hstep, ih]
    rw [scriptVisitCall_init st c.1 c.2]
    cases h : st.initial_vm with
    | some t => simp
    | none =>
      cases hq : qualifiesInit c with
      | none => simp [List.filterMap_cons, hq]
      | some s => simp [List.filterMap_cons, hq]

/-- C3 amended: over any traversal, for call expressions whose callee is an
identifier reference and whose first argument is a string literal, a byte
length of at least 1000 is recorded as the main VM payload with the last such
match winning, and a byte length strictly greater than 300 and strictly less
than 1000 is recorded as the initial VM payload with the first such match
winning (when none was recorded before), regardless of the identifier's name;
a length of exactly 300 qualifies for neither. -/
theorem claim_C3_amended_payload_bands (calls : List (Expression × List Argument))
    (st : ScriptState) :
    ((scriptVisitCalls st calls).main_vm =
      match (calls.filterMap qualifiesMain).getLast? with
      | some s => some s
      | none => st.main_vm) ∧
    ((scriptVisitCalls st calls).initial_vm =
      match st.initial_vm with
      | some s => some s
      | none => (calls.filterMap qualifiesInit).head?) :=
  ⟨scriptVisitCalls_main calls st, scriptVisitCalls_init calls st⟩

/-- A 300-byte string: on the boundary the claim includes but the code
excludes. -/
def str300 : String := String.mk (List.replicate 300 'a')

set_option maxRecDepth 8192 in
/-- C3 counterexample: a call with identifier callee and a 300-byte string
first argument, with no initial payload recorded yet, is NOT recorded as the
initial VM payload — the claim's inclusive lower bound of 300 fails on the
code's strict `len > 300`. -/
theorem claim_C3_counterexample :
    str300.utf8ByteSize = 300 ∧
    ScriptState.initial.initial_vm = none ∧
    (scriptVisitCall ScriptState.initial (.identifier "f")
        [.expr (.stringLiteral str300)]).initial_vm = none := by
  have hlen : str300.utf8ByteSize = 300 := by decide
  refine ⟨hlen, rfl, ?_⟩
  simp [scriptVisitCall, isIdentifierReference, hlen, ScriptState.initial]

theorem foStmts_append (xs ys : List Statement) (st : FOState) :
    foStmts st (xs ++ ys) =
      ((foStmts (foStmts st xs).1 ys).1,
       (foStmts st xs).2 ++ (foStmts (foStmts st xs).1 ys).2) := by
  induction xs generalizing st with
  | nil => simp [foStmts]
  | cons x rest ih =>
    rcases hx : foStmt st x with ⟨st1, s1⟩
    simp only [List.cons_append, foStmts, hx]
    rw [ih st1]

/-- A `+`/`^` binary expression pairing a non-zero numeric literal with a call
expression overwrites the offset with the literal cast to `i16` and does not
descend into its own subtree (offset.rs lines 95-122). -/
theorem foExpr_offset_match (st : FOState) (op : String) (v : ℚ)
    (c : Expression) (args : List Argument)
    (hop : op = "+" ∨ op = "^") (hnz : jsToI64 (.fin v) ≠ 0) :
    foExpr st (.binary op (.numericLiteral v) (.call c args)) =
      ({ st with offset := wrapI16 (jsToI64 (.fin v)) },
       .binary op (.numericLiteral v) (.call c args)) := by
  have hol : offsetLit op (.numericLiteral v) (.call c args) =
      some (jsToI64 (.fin v)) := by
    rcases hop with h | h <;> simp [offsetLit, h]
  simp [foExpr, hol, hnz]

/-- C4 amended: the matched offset expression contributes its literal cast to
`i16` without the traversal descending into the matched subtree, but every
later match overwrites the stored offset: whatever was traversed before, if
the final statement is a matching `+`/`^` expression with literal `v`, the
recorded offset is `v` cast to `i16` — the last match wins, not the first. -/
theorem claim_C4_amended_offset_last_match (st : FOState) (op : String) (v : ℚ)
    (c : Expression) (args : List Argument) (ss : List Statement)
    (hop : op = "+" ∨ op = "^") (hnz : jsToI64 (.fin v) ≠ 0) :
    foExpr st (.binary op (.numericLiteral v) (.call c args)) =
      ({ st with offset := wrapI16 (jsToI64 (.fin v)) },
       .binary op (.numericLiteral v) (.call c args)) ∧
    (foStmts st (ss ++ [.exprStmt (.binary op (.numericLiteral v)
        (.call c args))])).1.offset = wrapI16 (jsToI64 (.fin v)) := by
  refine ⟨foExpr_offset_match st op v c args hop hnz, ?_⟩
  rw [foStmts_append]
  rcases h : foStmts st ss with ⟨stMid, ss2⟩
  simp only [foStmts, foStmt]
  rw [foExpr_offset_match stMid op v c args hop hnz]

/-- C4 witness: the amended offset theorem at a concrete program prefix. -/
theorem claim_C4_witness :
    ((("+" : String) = "+" ∨ ("+" : String) = "^") ∧ jsToI64 (.fin 9) ≠ 0) ∧
    (foStmts FOState.initial ([Statement.otherStmt] ++
        [.exprStmt (.binary "+" (.numericLiteral 9)
          (.call (.identifier "g") []))])).1.offset =
      wrapI16 (jsToI64 (.fin 9)) :=
  ⟨⟨Or.inl rfl, by decide⟩,
   (claim_C4_amended_offset_last_match FOState.initial "+" 9 (.identifier "g") []
      [Statement.otherStmt] (Or.inl rfl) (by decide)).2⟩

/-- The two-match program of the C4 counterexample: both statements match the
offset pattern, first with literal 5, then with literal 7. -/
def offsetProgram : List Statement :=
  [.exprStmt (.binary "+" (.numericLiteral 5) (.call (.identifier "g") [])),
   .exprStmt (.binary "+" (.numericLiteral 7) (.call (.identifier "g") []))]

/-- C4 counterexample: with two matching offset expressions in traversal
order (literals 5 then 7), the recorded offset is 7, not the first match's
5 — later matching subtrees do change the recorded offset. -/
theorem claim_C4_counterexample :
    (foStmts FOState.initial offsetProgram).1.offset = 7 ∧ (7 : Int) ≠ 5 := by
  have e1 := foExpr_offset_match FOState.initial "+" 5 (.identifier "g") []
    (Or.inl rfl) (by decide)
  have e2 := foExpr_offset_match
    { FOState.initial with offset := wrapI16 (jsToI64 (.fin 5)) } "+" 7
    (.identifier "g") [] (Or.inl rfl) (by decide)
  constructor
  · simp only [offsetProgram, foStmts, foStmt, e1, e2]
    decide
  · decide

/-! ## C9: mutation analysis of `FindOffset`

The only tree mutation in any of the visitors is `FindOffset`'s
`move_expression` on an assignment right side of the byte-mask key shape.  The
predicates below say that no such assignment occurs anywhere in a tree; under
them the traversal is proved to return the tree unchanged. -/

mutual

/-- No assignment anywhere in the expression carries the key shape on its
right side. -/
def noKeySiteE : Expression → Bool
  | .assignment l r => !(isKeyShape r) && noKeySiteT l && noKeySiteE r
  | .binary _ l r => noKeySiteE l && noKeySiteE r
  | .numericLiteral _ => true
  | .stringLiteral _ => true
  | .identifier _ => true
  | .nullLiteral => true
  | .objectExpr => true
  | .otherExpr => true
  | .parenthesized e => noKeySiteE e
  | .sequence es => noKeySiteEs es
  | .unary _ a => noKeySiteE a
  | .logical _ l r => noKeySiteE l && noKeySiteE r
  | .conditional t c a => noKeySiteE t && noKeySiteE c && noKeySiteE a
  | .call callee args => noKeySiteE callee && noKeySiteArgs args
  | .newExpr callee args => noKeySiteE callee && noKeySiteArgs args
  | .computedMember o e => noKeySiteE o && noKeySiteE e
  | .staticMember o _ => noKeySiteE o
  | .arrayExpr els => noKeySiteArgs els

def noKeySiteEs : List Expression → Bool
  | [] => true
  | e :: rest => noKeySiteE e && noKeySiteEs rest

def noKeySiteArg : Argument → Bool
  | .expr e => noKeySiteE e
  | .nonExpr => true

def noKeySiteArgs : List Argument → Bool
  | [] => true
  | a :: rest => noKeySiteArg a && noKeySiteArgs rest

def noKeySiteT : AssignmentTarget → Bool
  | .targetIdent _ => true
  | .targetComputedMember o e => noKeySiteE o && noKeySiteE e
  | .targetStaticMember o _ => noKeySiteE o
  | .targetOther => true

end

def noKeySiteOE : Option Expression → Bool
  | none => true
  | some e => noKeySiteE e

mutual

def noKeySiteS : Statement → Bool
  | .exprStmt e => noKeySiteE e
  | .returnStmt none => true
  | .returnStmt (some e) => noKeySiteE e
  | .ifStmt t c none => noKeySiteE t && noKeySiteS c
  | .ifStmt t c (some a) => noKeySiteE t && noKeySiteS c && noKeySiteS a
  | .throwStmt e => noKeySiteE e
  | .forStmt i t u b =>
    noKeySiteOE i && noKeySiteOE t && noKeySiteOE u && noKeySiteS b
  | .block ss => noKeySiteSs ss
  | .funcDecl _ none => true
  | .funcDecl _ (some ss) => noKeySiteSs ss
  | .otherStmt => true

def noKeySiteSs : List Statement → Bool
  | [] => true
  | s :: rest => noKeySiteS s && noKeySiteSs rest

end

mutual

theorem foExpr_preserves (st : FOState) (e : Expression)
    (h : noKeySiteE e = true) : (foExpr st e).2 = e := by
  cases e with
  | assignment l r =>
    simp only [noKeySiteE, Bool.and_eq_true, Bool.not_eq_true'] at h
    obtain ⟨⟨hk, hl⟩, hr⟩ := h
    rcases ht : foTarget st l with ⟨st2, l2⟩
    rcases hre : foExpr st2 r with ⟨st3, r3⟩
    have ihl := foTarget_preserves st l hl
    have ihr := foExpr_preserves st2 r hr
    rw [ht] at ihl
    rw [hre] at ihr
    simp [foExpr, hk, ht, hre, ihl, ihr]
  | binary op l r =>
    simp only [noKeySiteE, Bool.and_eq_true] at h
    cases hol : offsetLit op l r with
    | some lit =>
      by_cases hz : lit ≠ 0
      · simp [foExpr, hol, hz]
      · rcases hl : foExpr st l with ⟨st1, l1⟩
        rcases hr : foExpr st1 r with ⟨st2, r2⟩
        have ihl := foExpr_preserves st l h.1
        have ihr := foExpr_preserves st1 r h.2
        rw [hl] at ihl
        rw [hr] at ihr
        simp [foExpr, hol, hz, hl, hr, ihl, ihr]
    | none =>
      rcases hl : foExpr st l with ⟨st1, l1⟩
      rcases hr : foExpr st1 r with ⟨st2, r2⟩
      have ihl := foExpr_preserves st l h.1
      have ihr := foExpr_preserves st1 r h.2
      rw [hl] at ihl
      rw [hr] at ihr
      simp [foExpr, hol, hl, hr, ihl, ihr]
  | numericLiteral v => simp [foExpr]
  | stringLiteral v => simp [foExpr]
  | identifier n => simp [foExpr]
  | nullLiteral => simp [foExpr]
  | objectExpr => simp [foExpr]
  | otherExpr => simp [foExpr]
  | parenthesized e1 =>
    simp only [noKeySiteE] at h
    rcases he : foExpr st e1 with ⟨st1, e2⟩
    have ih := foExpr_preserves st e1 h
    rw [he] at ih
    simp [foExpr, he, ih]
  | sequence es =>
    simp only [noKeySiteE] at h
    rcases he : foExprList st es with ⟨st1, es1⟩
    have ih := foExprList_preserves st es h
    rw [he] at ih
    simp [foExpr, he, ih]
  | unary op a =>
    simp only [noKeySiteE] at h
    rcases he : foExpr st a with ⟨st1, a1⟩
    have ih := foExpr_preserves st a h
    rw [he] at ih
    simp [foExpr, he, ih]
  | logical op l r =>
    simp only [noKeySiteE, Bool.and_eq_true] at h
    rcases hl : foExpr st l with ⟨st1, l1⟩
    rcases hr : foExpr st1 r with ⟨st2, r2⟩
    have ihl := foExpr_preserves st l h.1
    have ihr := foExpr_preserves st1 r h.2
    rw [hl] at ihl
    rw [hr] at ihr
    simp [foExpr, hl, hr, ihl, ihr]
  | conditional t c a =>
    simp only [noKeySiteE, Bool.and_eq_true] at h
    rcases ht : foExpr st t with ⟨st1, t1⟩
    rcases hc : foExpr st1 c with ⟨st2, c2⟩
    rcases ha : foExpr st2 a with ⟨st3, a3⟩
    have iht := foExpr_preserves st t h.1.1
    have ihc := foExpr_preserves st1 c h.1.2
    have iha := foExpr_preserves st2 a h.2
    rw [ht] at iht
    rw [hc] at ihc
    rw [ha] at iha
    simp [foExpr, ht, hc, ha, iht, ihc, iha]
  | call callee args =>
    simp only [noKeySiteE, Bool.and_eq_true] at h
    rcases hc : foExpr st callee with ⟨st1, callee1⟩
    rcases ha : foArgList st1 args with ⟨st2, args2⟩
    have ihc := foExpr_preserves st callee h.1
    have iha := foArgList_preserves st1 args h.2
    rw [hc] at ihc
    rw [ha] at iha
    simp [foExpr, hc, ha, ihc, iha]
  | newExpr callee args =>
    simp only [noKeySiteE, Bool.and_eq_true] at h
    rcases hc : foExpr st callee with ⟨st1, callee1⟩
    rcases ha : foArgList st1 args with ⟨st2, args2⟩
    have ihc := foExpr_preserves st callee h.1
    have iha := foArgList_preserves st1 args h.2
    rw [hc] at ihc
    rw [ha] at iha
    simp [foExpr, hc, ha, ihc, iha]
  | computedMember o e1 =>
    simp only [noKeySiteE, Bool.and_eq_true] at h
    rcases ho : foExpr st o with ⟨st1, o1⟩
    rcases he : foExpr st1 e1 with ⟨st2, e2⟩
    have iho := foExpr_preserves st o h.1
    have ihe := foExpr_preserves st1 e1 h.2
    rw [ho] at iho
    rw [he] at ihe
    simp [foExpr, ho, he, iho, ihe]
  | staticMember o p =>
    simp only [noKeySiteE] at h
    rcases ho : foExpr st o with ⟨st1, o1⟩
    have iho := foExpr_preserves st o h
    rw [ho] at iho
    simp [foExpr, ho, iho]
  | arrayExpr els =>
    simp only [noKeySiteE] at h
    rcases he : foArgList st els with ⟨st1, els1⟩
    have ih := foArgList_preserves st els h
    rw [he] at ih
    simp [foExpr, he, ih]
termination_by sizeOf e

theorem foExprList_preserves (st : FOState) (es : List Expression)
    (h : noKeySiteEs es = true) : (foExprList st es).2 = es := by
  cases es with
  | nil => simp [foExprList]
  | cons e rest =>
    simp only [noKeySiteEs, Bool.and_eq_true] at h
    rcases he : foExpr st e with ⟨st1, e1⟩
    rcases hr : foExprList st1 rest with ⟨st2, rest2⟩
    have ihe := foExpr_preserves st e h.1
    have ihr := foExprList_preserves st1 rest h.2
    rw [he] at ihe
    rw [hr] at ihr
    simp [foExprList, he, hr, ihe, ihr]
termination_by sizeOf es

theorem foArg_preserves (st : FOState) (a : Argument)
    (h : noKeySiteArg a = true) : (foArg st a).2 = a := by
  cases a with
  | nonExpr => simp [foArg]
  | expr e =>
    simp only [noKeySiteArg] at h
    rcases he : foExpr st e with ⟨st1, e1⟩
    have ih := foExpr_preserves st e h
    rw [he] at ih
    simp [foArg, he, ih]
termination_by sizeOf a

theorem foArgList_preserves (st : FOState) (as_ : List Argument)
    (h : noKeySiteArgs as_ = true) : (foArgList st as_).2 = as_ := by
  cases as_ with
  | nil => simp [foArgList]
  | cons a rest =>
    simp only [noKeySiteArgs, Bool.and_eq_true] at h
    rcases ha : foArg st a with ⟨st1, a1⟩
    rcases hr : foArgList st1 rest with ⟨st2, rest2⟩
    have iha := foArg_preserves st a h.1
    have ihr := foArgList_preserves st1 rest h.2
    rw [ha] at iha
    rw [hr] at ihr
    simp [foArgList, ha, hr, iha, ihr]
termination_by sizeOf as_

theorem foTarget_preserves (st : FOState) (t : AssignmentTarget)
    (h : noKeySiteT t = true) : (foTarget st t).2 = t := by
  cases t with
  | targetIdent n => simp [foTarget]
  | targetOther => simp [foTarget]
  | targetComputedMember o e =>
    simp only [noKeySiteT, Bool.and_eq_true] at h
    rcases ho : foExpr st o with ⟨st1, o1⟩
    rcases he : foExpr st1 e with ⟨st2, e2⟩
    have iho := foExpr_preserves st o h.1
    have ihe := foExpr_preserves st1 e h.2
    rw [ho] at iho
    rw [he] at ihe
    simp [foTarget, ho, he, iho, ihe]
  | targetStaticMember o p =>
    simp only [noKeySiteT] at h
    rcases ho : foExpr st o with ⟨st1, o1⟩
    have iho := foExpr_preserves st o h
    rw [ho] at iho
    simp [foTarget, ho, iho]
termination_by sizeOf t

end

theorem foOptExpr_preserves (st : FOState) (oe : Option Expression)
    (h : noKeySiteOE oe = true) : (foOptExpr st oe).2 = oe := by
  cases oe with
  | none => simp [foOptExpr]
  | some e =>
    simp only [noKeySiteOE] at h
    rcases he : foExpr st e with ⟨st1, e1⟩
    have ih := foExpr_preserves st e h
    rw [he] at ih
    simp [foOptExpr, he, ih]

mutual

theorem foStmt_preserves (st : FOState) (s : Statement)
    (h : noKeySiteS s = true) : (foStmt st s).2 = s := by
  cases s with
  | exprStmt e =>
    simp only [noKeySiteS] at h
    rcases he : foExpr st e with ⟨st1, e1⟩
    have ih := foExpr_preserves st e h
    rw [he] at ih
    simp [foStmt, he, ih]
  | returnStmt oe =>
    rcases he : foOptExpr st oe with ⟨st1, oe1⟩
    have ih : (foOptExpr st oe).2 = oe := by
      apply foOptExpr_preserves
      cases oe with
      | none => rfl
      | some e => simpa [noKeySiteS, noKeySiteOE] using h
    rw [he] at ih
    simp [foStmt, he, ih]
  | ifStmt t c a =>
    cases a with
    | none =>
      simp only [noKeySiteS, Bool.and_eq_true] at h
      rcases ht : foExpr st t with ⟨st1, t1⟩
      rcases hc : foStmt st1 c with ⟨st2, c2⟩
      have iht := foExpr_preserves st t h.1
      have ihc := foStmt_preserves st1 c h.2
      rw [ht] at iht
      rw [hc] at ihc
      simp [foStmt, ht, hc, iht, ihc]
    | some alt =>
      simp only [noKeySiteS, Bool.and_eq_true] at h
      rcases ht : foExpr st t with ⟨st1, t1⟩
      rcases hc : foStmt st1 c with ⟨st2, c2⟩
      rcases ha : foStmt st2 alt with ⟨st3, alt3⟩
      have iht := foExpr_preserves st t h.1.1
      have ihc := foStmt_preserves st1 c h.1.2
      have iha := foStmt_preserves st2 alt h.2
      rw [ht] at iht
      rw [hc] at ihc
      rw [ha] at iha
      simp [foStmt, ht, hc, ha, iht, ihc, iha]
  | throwStmt e =>
    simp only [noKeySiteS] at h
    rcases he : foExpr st e with ⟨st1, e1⟩
    have ih := foExpr_preserves st e h
    rw [he] at ih
    simp [foStmt, he, ih]
  | forStmt i t u b =>
    simp only [noKeySiteS, Bool.and_eq_true] at h
    obtain ⟨⟨⟨hi, ht⟩, hu⟩, hb⟩ := h
    rcases hie : foOptExpr { st with in_for := true } i with ⟨st1, i1⟩
    rcases hte : foOptExpr st1 t with ⟨st2, t2⟩
    rcases hue : foOptExpr st2 u with ⟨st3, u3⟩
    rcases hbe : foStmt st3 b with ⟨st4, b4⟩
    have ihi := foOptExpr_preserves { st with in_for := true } i hi
    have iht := foOptExpr_preserves st1 t ht
    have ihu := foOptExpr_preserves st2 u hu
    have ihb := foStmt_preserves st3 b hb
    rw [hie] at ihi
    rw [hte] at iht
    rw [hue] at ihu
    rw [hbe] at ihb
    simp [foStmt, hie, hte, hue, hbe, ihi, iht, ihu, ihb]
  | block ss =>
    simp only [noKeySiteS] at h
    rcases hs : foStmts st ss with ⟨st1, ss1⟩
    have ih := foStmts_preserves st ss h
    rw [hs] at ih
    simp [foStmt, hs, ih]
  | funcDecl fid fb =>
    cases fb with
    | none => simp [foStmt]
    | some ss =>
      simp only [noKeySiteS] at h
      rcases hs : foStmts st ss with ⟨st1, ss1⟩
      have ih := foStmts_preserves st ss h
      rw [hs] at ih
      simp [foStmt, hs, ih]
  | otherStmt => simp [foStmt]
termination_by sizeOf s

theorem foStmts_preserves (st : FOState) (ss : List Statement)
    (h : noKeySiteSs ss = true) : (foStmts st ss).2 = ss := by
  cases ss with
  | nil => simp [foStmts]
  | cons s rest =>
    simp only [noKeySiteSs, Bool.and_eq_true] at h
    rcases hs : foStmt st s with ⟨st1, s1⟩
    rcases hr : foStmts st1 rest with ⟨st2, rest2⟩
    have ihs := foStmt_preserves st s h.1
    have ihr := foStmts_preserves st1 rest h.2
    rw [hs] at ihs
    rw [hr] at ihr
    simp [foStmts, hs, hr, ihs, ihr]
termination_by sizeOf ss

end

/-- C9 amended: `FindOffset` is a `VisitMut`, not a read-only pass — it moves
each matched byte-mask key expression out of the tree, leaving a null literal
(see the counterexample) — but it is the only mutating step: on any program
containing no assignment whose right side has the key shape, the tree after
the pass is identical to the tree before it, for every starting state. -/
theorem claim_C9_tree_preserved_without_key_sites (ss : List Statement)
    (st : FOState) (h : noKeySiteSs ss = true) : (foStmts st ss).2 = ss :=
  foStmts_preserves st ss h

/-- A small mask-free program used by the C9 witness: a `for` statement whose
body assigns a value without the `& 255` shape. -/
def maskFreeProgram : List Statement :=
  [.forStmt none none none (.exprStmt (.assignment (.targetIdent "x")
    (.binary "|" (.identifier "y") (.numericLiteral 255)))),
   .exprStmt (.call (.identifier "g") [.expr (.identifier "z")])]

/-- C9 witness: the preservation theorem applied to a concrete program with a
`for` loop but no key-shaped assignment. -/
theorem claim_C9_witness :
    noKeySiteSs maskFreeProgram = true ∧
    (foStmts FOState.initial maskFreeProgram).2 = maskFreeProgram := by
  have hp : noKeySiteSs maskFreeProgram = true := by
    simp [maskFreeProgram, noKeySiteSs, noKeySiteS, noKeySiteOE, noKeySiteE,
      noKeySiteT, noKeySiteArgs, noKeySiteArg, isKeyShape]
  exact ⟨hp, claim_C9_tree_preserved_without_key_sites maskFreeProgram FOState.initial hp⟩

/-- A program whose `for` body assigns a 255-masked value: the key-expression
shape `FindOffset` moves out of the tree. -/
def keyMaskProgram : List Statement :=
  [.forStmt none none none (.exprStmt (.assignment (.targetIdent "x")
    (.binary "&" (.identifier "y") (.numericLiteral 255))))]

/-- C9 counterexample: running `FindOffset` over a program containing a key
expression does mutate the tree — the matched right side is replaced by a null
literal, so the tree after the pass differs from the tree before it. -/
theorem claim_C9_counterexample :
    (foStmts FOState.initial keyMaskProgram).2 ≠ keyMaskProgram := by
  have hkey : isKeyShape (.binary "&" (.identifier "y") (.numericLiteral 255)) = true := by
    simp [isKeyShape, jsToU32, ratTrunc]
  have h : (foStmts FOState.initial keyMaskProgram).2 =
      [.forStmt none none none (.exprStmt (.assignment (.targetIdent "x")
        Expression.nullLiteral))] := by
    simp [keyMaskProgram, foStmts, foStmt, foOptExpr, foExpr, foTarget, hkey,
      FOState.initial]
  rw [h]
  simp [keyMaskProgram]

end SolverTest
